import Mathlib

/-!
# Verification of the `tibeb` code generator (package `generator`)

A shallow embedding of the schema-extraction and code-emission pipeline in
`generator.go`: `Generate`, `findValidationSchemas`, `extractValidationSchema`,
`findRootCall`, `extractFieldValidation`, `inferFieldType`, `extractValidators`
and `generateValidator`.  Go AST nodes are embedded as an inductive expression
tree carrying exactly the components those functions inspect; machine I/O
(directory creation, file creation, template rendering) is embedded as an
oracle environment plus a trace of the files created on disk.
-/

namespace TibebGen

/-! ## Go AST embedding

The generator consumes `go/ast` nodes only through the following shapes:
`*ast.CallExpr` (fields `Fun`, `Args`), `*ast.SelectorExpr` (`X`, `Sel.Name`),
`*ast.IndexExpr` (`X`, `Index`), `*ast.Ident` (`Name`), `*ast.BasicLit`
(`Value`), `*ast.FuncLit` (`Type.Results` — a possibly-nil field list of which
only each entry's `Type` is read — and `Body.List`), and `*ast.ReturnStmt`
(`Results`).  Every other node kind is only ever the target of a failed type
assertion, so all of them collapse into the constructors `otherExpr` /
`otherStmt`. -/

mutual

/-- Embedding of the Go expression nodes inspected by the generator. -/
inductive Expr where
  | callExpr (fn : Expr) (args : List Expr)
  | selectorExpr (x : Expr) (sel : String)
  | indexExpr (x : Expr) (index : Expr)
  | ident (name : String)
  | basicLit (value : String)
  | funcLit (results : Option (List Expr)) (body : List Stmt)
  | otherExpr

/-- Embedding of the Go statement nodes inspected by the generator
(only the first statement of a function-literal body is ever looked at,
and only a return statement matters there). -/
inductive Stmt where
  | returnStmt (results : List Expr)
  | otherStmt

end

/-! ## Data model (generator.go lines 22-39) -/

/-- `ValidatorCall` (generator.go:30-33): a validator method call with its
argument tokens. -/
structure ValidatorCall where
  Method : String
  Args : List String
  deriving DecidableEq, Repr

/-- `ValidationField` (generator.go:23-27).  The Go field `Type` is named `Ty`
here because `Type` is a Lean keyword. -/
structure ValidationField where
  Name : String
  Ty : String
  Validators : List ValidatorCall
  deriving DecidableEq, Repr

/-- `ValidationSchema` (generator.go:36-39). -/
structure ValidationSchema where
  TypeName : String
  Fields : List ValidationField
  deriving DecidableEq, Repr

/-- `Config` (generator.go:15-20). -/
structure Config where
  InputFile : String
  OutputDir : String
  Package : String
  Verbose : Bool
  deriving DecidableEq, Repr

/-! ## Chain extraction (generator.go lines 115-275) -/

/-- `findRootCall` (generator.go:174-188): starting from a call, repeatedly
unwrap `current.Fun.(*ast.SelectorExpr).X.(*ast.CallExpr)`; the loop breaks as
soon as either type assertion fails, returning the innermost call reached. -/
def findRootCall (e : Expr) : Expr :=
  match e with
  | .callExpr (.selectorExpr x _) _ =>
    match x with
    | .callExpr _ _ => findRootCall x
    | _ => e
  | _ => e

/-- `inferFieldType` (generator.go:216-223): the name of the first result
type when it is an identifier, otherwise the fallback marker. -/
def inferFieldType (results : Option (List Expr)) : String :=
  match results with
  | some (t :: _) =>
    match t with
    | .ident name => name
    | _ => "interface\x7b\x7d"
  | _ => "interface\x7b\x7d"

/-- The argument-collection loop of `extractValidators`
(generator.go:254-261): `for _, arg := range call.Args` appending
`basicLit.Value` for `*ast.BasicLit` arguments and `ident.Name` for
`*ast.Ident` arguments, skipping every other shape. -/
def litArgs (args : List Expr) : List String :=
  args.foldl
    (fun acc a =>
      match a with
      | .basicLit v => acc ++ [v]
      | .ident n => acc ++ [n]
      | _ => acc)
    []

/-- Helper for the type-constructor elision test in `extractValidators`
(generator.go:246): `sel.X` is an `*ast.Ident` named `validate`. -/
def isValidateIdent : Expr → Bool
  | .ident "validate" => true
  | _ => false

/-- The loop body of `extractValidators` (generator.go:230-272) with the
accumulated list made explicit; each recognized call is prepended
(`validators = append([]ValidatorCall{validatorCall}, validators...)`), and a
zero-argument `String`/`Int` call made directly on the `validate`
identifier is skipped (`current = sel.X; continue`, after which the loop
breaks because an identifier is not a call). -/
def extractValidatorsLoop (e : Expr) (acc : List ValidatorCall) : List ValidatorCall :=
  match e with
  | .callExpr (.selectorExpr x sel) args =>
    if (sel = "String" || sel = "Int") && args.isEmpty && isValidateIdent x then
      extractValidatorsLoop x acc
    else
      extractValidatorsLoop x ({ Method := sel, Args := litArgs args } :: acc)
  | _ => acc

/-- `extractValidators` (generator.go:226-275): walk a validator chain from
the outermost call inward, starting from an empty accumulator. -/
def extractValidators (e : Expr) : List ValidatorCall :=
  extractValidatorsLoop e []

/-- `extractFieldValidation` (generator.go:191-213).  Its `*ast.CallExpr`
parameter is consumed only through `call.Args`, so the embedding takes the
argument list: exactly two arguments are required, the first must be a
function literal whose first body statement is a return whose first result is
a selector expression; otherwise the result is `none` (the field is
dropped). -/
def extractFieldValidation (args : List Expr) : Option ValidationField :=
  match args with
  | [arg0, arg1] =>
    match arg0 with
    | .funcLit results body =>
      match body with
      | .returnStmt rets :: _ =>
        match rets with
        | .selectorExpr _ fieldName :: _ =>
          some { Name := fieldName
                 Ty := inferFieldType results
                 Validators := extractValidators arg1 }
        | _ => none
      | _ => none
    | _ => none
  | _ => none

/-- The `Field()`-collection loop of `extractValidationSchema`
(generator.go:148-168): walk the chain from the outermost call inward; at a
call whose selector is `Field`, extract a field and prepend it
(`schema.Fields = append([]ValidationField{*field}, schema.Fields...)`);
descend while the receiver is a call, otherwise stop.  Descending into a
non-call receiver returns the accumulator unchanged, exactly as the `break`
does. -/
def collectFields (e : Expr) (acc : List ValidationField) : List ValidationField :=
  match e with
  | .callExpr (.selectorExpr x sel) args =>
    let acc1 :=
      if sel = "Field" then
        match extractFieldValidation args with
        | some f => f :: acc
        | none => acc
      else acc
    match x with
    | .callExpr _ _ => collectFields x acc1
    | _ => acc1
  | _ => acc

/-- `extractValidationSchema` (generator.go:116-171): the expression must be a
call; the root of the chain (via `findRootCall`, which never returns nil) must
have the shape `validate.Struct[T]()` with `T` a plain identifier, which
becomes `TypeName`; the fields are then collected along the chain. -/
def extractValidationSchema (expr : Expr) : Option ValidationSchema :=
  match expr with
  | .callExpr fn args =>
    match findRootCall (.callExpr fn args) with
    | .callExpr (.indexExpr (.selectorExpr (.ident pkg) selName) (.ident tname)) _ =>
      if pkg = "validate" && selName = "Struct" then
        some { TypeName := tname, Fields := collectFields (.callExpr fn args) [] }
      else none
    | _ => none
  | _ => none

/-! ## Schema scanning (generator.go lines 72-113)

`findValidationSchemas` runs `ast.Inspect` over the whole file, which visits
nodes in depth-first pre-order: every `*ast.GenDecl` in the file is visited —
the top-level ones and also those appearing inside function bodies (a local
`var` declaration is a `*ast.DeclStmt` wrapping a `*ast.GenDecl`).  The file
is embedded by the ordered structure `ast.Inspect` traverses: declarations in
source order, a function declaration carrying the ordered `GenDecl` nodes
contained in its body. -/

/-- `*ast.ValueSpec`: declared names and initializer expressions. -/
structure ValueSpecT where
  Names : List String
  Values : List Expr

/-- A `GenDecl` spec: only value specs are inspected, every other spec kind
(`ImportSpec`, `TypeSpec`) fails the `*ast.ValueSpec` type assertion. -/
inductive SpecT where
  | valueSpec (vs : ValueSpecT)
  | otherSpec

/-- `*ast.GenDecl`: `IsVar` is `Tok == token.VAR`; `Doc` is the doc-comment
group (`none` when `genDecl.Doc == nil`, otherwise the list of comment
texts). -/
structure GenDeclT where
  IsVar : Bool
  Doc : Option (List String)
  Specs : List SpecT

/-- A top-level declaration as traversed by `ast.Inspect`: either a
`*ast.GenDecl`, or a function declaration represented by the ordered list of
`GenDecl` nodes `ast.Inspect` encounters inside its body, or any other
declaration containing none. -/
inductive DeclT where
  | genDecl (d : GenDeclT)
  | funcDecl (bodyDecls : List GenDeclT)
  | otherDecl

/-- `*ast.File`: declarations in source order. -/
structure FileT where
  Decls : List DeclT

/-! ### Model of the consumed `strings`/`filepath` stdlib functions

The generator feeds these only ASCII identifier and comment text, so the
byte-level Go functions are modeled at the character level (all definitions
kernel-computable). -/

/-- `strings.HasSuffix`. -/
def strHasSuffix (s suf : String) : Bool :=
  suf.data.isSuffixOf s.data

/-- `strings.TrimSuffix`: drop the suffix when present. -/
def strTrimSuffix (s suf : String) : String :=
  if strHasSuffix s suf then ⟨s.data.take (s.data.length - suf.data.length)⟩ else s

/-- `strings.ToLower`. -/
def strToLower (s : String) : String :=
  ⟨s.data.map Char.toLower⟩

/-- `strings.TrimSpace`. -/
def strTrimSpace (s : String) : String :=
  ⟨((s.data.dropWhile Char.isWhitespace).reverse.dropWhile Char.isWhitespace).reverse⟩

/-- Index of the first occurrence of the (nonempty) pattern `sep` in `l`,
`none` when `sep` does not occur. -/
def firstOccur (sep : List Char) : List Char → Option Nat
  | [] => none
  | c :: rest =>
    if sep.isPrefixOf (c :: rest) then some 0
    else (firstOccur sep rest).map (· + 1)

/-- The component `parts[1]` of `strings.Split(l, sep)` for a nonempty `sep`:
`some` (the segment between the first and second occurrences of `sep`, or to
the end when `sep` occurs once) exactly when `strings.Contains(l, sep)` holds,
i.e. when `len(parts) > 1`. -/
def splitPart1 (sep l : List Char) : Option (List Char) :=
  match firstOccur sep l with
  | none => none
  | some i =>
    let rest := l.drop (i + sep.length)
    some (match firstOccur sep rest with
          | some j => rest.take j
          | none => rest)

/-- The type-name fallback block of `findValidationSchemas`
(generator.go:82-102): only when the extracted `TypeName` is empty and the
value has a matching declared name, try first the first doc-comment line
split around `"validation schema for"` (taking the trimmed remainder when the
split produced more than one part, i.e. when `strings.Contains` holds), then
the declared variable name with a trailing `Schema` suffix stripped
(`strings.HasSuffix`/`strings.TrimSuffix`), else the variable name verbatim. -/
def resolveSchemaName (doc : Option (List String)) (names : List String) (i : Nat)
    (schema : ValidationSchema) : ValidationSchema :=
  if schema.TypeName = "" ∧ i < names.length then
    let s1 :=
      match doc with
      | some (text :: _) =>
        match splitPart1 "validation schema for".data text.data with
        | some part => { schema with TypeName := strTrimSpace ⟨part⟩ }
        | none => schema
      | _ => schema
    if s1.TypeName = "" then
      let varName := names.getD i ""
      { s1 with
        TypeName :=
          if strHasSuffix varName "Schema" then strTrimSuffix varName "Schema"
          else varName }
    else s1
  else schema

/-- The per-value-spec loop of `findValidationSchemas` (generator.go:79-105):
`for i, value := range valueSpec.Values`, appending one resolved schema for
each value on which `extractValidationSchema` succeeds. -/
def schemasOfValueSpec (doc : Option (List String)) (vs : ValueSpecT) :
    List ValidationSchema :=
  vs.Values.enum.foldl
    (fun acc iv =>
      match extractValidationSchema iv.2 with
      | some schema => acc ++ [resolveSchemaName doc vs.Names iv.1 schema]
      | none => acc)
    []

/-- The per-`GenDecl` step of the `ast.Inspect` callback
(generator.go:77-107): only `var` declarations are considered, and each of
their value specs is scanned in order. -/
def schemasOfGenDecl (d : GenDeclT) : List ValidationSchema :=
  if d.IsVar then
    d.Specs.foldl
      (fun acc sp =>
        match sp with
        | .valueSpec vs => acc ++ schemasOfValueSpec d.Doc vs
        | .otherSpec => acc)
      []
  else []

/-- The `GenDecl` nodes a declaration contributes to the `ast.Inspect`
pre-order traversal. -/
def declGenDecls : DeclT → List GenDeclT
  | .genDecl d => [d]
  | .funcDecl bodyDecls => bodyDecls
  | .otherDecl => []

/-- The ordered sequence of `GenDecl` nodes `ast.Inspect` visits in the
file. -/
def inspectGenDecls (f : FileT) : List GenDeclT :=
  f.Decls.foldl (fun acc d => acc ++ declGenDecls d) []

/-- `findValidationSchemas` (generator.go:72-113): the `ast.Inspect` walk
appends schemas (`schemas = append(schemas, *schema)`) in visitation order. -/
def findValidationSchemas (f : FileT) : List ValidationSchema :=
  (inspectGenDecls f).foldl (fun acc d => acc ++ schemasOfGenDecl d) []

/-! ## Code emission (generator.go lines 278-335)

`generateValidator` performs `os.MkdirAll`, `os.Create` and template
rendering.  These machine effects are embedded as a failure oracle
(`EmitEnv`), and the observable disk effect as the list of files created on
disk by a call: `os.Create` succeeds by creating (or truncating — creation
does not depend on prior existence) the named file, so the file exists on
disk from that point on even when the subsequent render fails.  The template
itself is a fixed literal, so `template.Parse` cannot fail; `tmpl.Execute`
failure is covered by the render oracle. -/

/-- Failure oracle for the machine effects of `generateValidator`. -/
structure EmitEnv where
  mkdirOk : String → Bool
  createOk : String → Bool
  renderOk : ValidationSchema → Bool

/-- One emission failure, tagged with the operation that failed
(generator.go:281, 290, 331). -/
inductive EmitErr where
  | mkdirFailed (dir : String)
  | createFailed (path : String)
  | renderFailed (typeName : String)
  deriving DecidableEq, Repr

/-- The output path of `generateValidator` (generator.go:285):
`filepath.Join(config.OutputDir, strings.ToLower(schema.TypeName)+"_validator.go")`;
for a plain relative directory name `filepath.Join` is separator
concatenation. -/
def outFilePath (config : Config) (schema : ValidationSchema) : String :=
  config.OutputDir ++ "/" ++ (strToLower schema.TypeName ++ "_validator.go")

/-- `generateValidator` (generator.go:278-335): create the output directory,
create the output file, render the template into it.  The first component is
the list of files created on disk by this call, the second the failure, if
any. -/
def generateValidator (env : EmitEnv) (config : Config) (schema : ValidationSchema) :
    List String × Option EmitErr :=
  if env.mkdirOk config.OutputDir then
    let outFile := outFilePath config schema
    if env.createOk outFile then
      if env.renderOk schema then ([outFile], none)
      else ([outFile], some (.renderFailed schema.TypeName))
    else ([], some (.createFailed outFile))
  else ([], some (.mkdirFailed config.OutputDir))

/-- A `Generate`-level error (generator.go:47, 58, 64): parse failure, the
no-schemas failure, or an emission failure wrapped with the schema's type
name. -/
inductive GenError where
  | parseError
  | noSchemaFound (file : String)
  | emission (typeName : String) (e : EmitErr)
  deriving DecidableEq, Repr

/-- The emission loop of `Generate` (generator.go:62-66): emit each schema in
order, returning the first failure immediately; files created by earlier
iterations stay on disk. -/
def emitSchemas (env : EmitEnv) (config : Config) :
    List ValidationSchema → List String × Option GenError
  | [] => ([], none)
  | s :: rest =>
    match generateValidator env config s with
    | (files, some e) => (files, some (.emission s.TypeName e))
    | (files, none) =>
      let r := emitSchemas env config rest
      (files ++ r.1, r.2)

/-- `Generate` (generator.go:42-69): parse the input file (the parse outcome
is the `parsed` argument, `none` for a parse failure), find the schemas, fail
when there are none, otherwise emit each schema in order. -/
def Generate (env : EmitEnv) (config : Config) (parsed : Option FileT) :
    List String × Option GenError :=
  match parsed with
  | none => ([], some .parseError)
  | some f =>
    let schemas := findValidationSchemas f
    if schemas.length = 0 then ([], some (.noSchemaFound config.InputFile))
    else emitSchemas env config schemas

/-! ## Chain constructors

The AST shapes of the recognized grammar, used to quantify over source
chains: `validate.Struct[T]()` roots, `.Field(arg0, arg1)` links and
`.Method(args)` validator links. -/

/-- The root builder call `validate.Struct[t]()` as parsed by `go/parser`:
a zero-argument call whose `Fun` is an `*ast.IndexExpr` over the selector
`validate.Struct` with index the identifier `t`. -/
def structRoot (t : String) : Expr :=
  .callExpr (.indexExpr (.selectorExpr (.ident "validate") "Struct") (.ident t)) []

/-- One `.Field(args...)` link applied to a receiver. -/
def mkFieldCall (recv : Expr) (args : List Expr) : Expr :=
  .callExpr (.selectorExpr recv "Field") args

/-- A left-associative `.Field` chain: `mkChain root [a, b, c]` is
`root.Field(a...).Field(b...).Field(c...)`. -/
def mkChain (root : Expr) (l : List (List Expr)) : Expr :=
  l.foldl mkFieldCall root

/-- A left-associative validator chain: `mkVChain root [(m, a), ...]` is
`root.m(a...)...`. -/
def mkVChain (root : Expr) (calls : List (String × List Expr)) : Expr :=
  calls.foldl (fun r c => .callExpr (.selectorExpr r c.1) c.2) root

/-! ## The emitted source, reparsed (generator.go lines 295-317)

`generateValidator` renders the fixed template

```
var {{TypeName}}Schema = validate.Struct[{{TypeName}}]()
    {{range Fields}}.Field(
        func(v {{TypeName}}) {{Ty}} { return v.{{Name}} },
        validate.{{capitalizeFirst Ty}}(){{range Validators}}.{{Method}}({{Args comma-joined}}){{end}})
    {{end}}
```

Re-parsing that text with `go/parser` yields, for the schema-value
initializer, exactly the expression these definitions construct, by Go's
expression grammar, provided each spliced field type is a single identifier
token and each spliced argument token is a single literal or identifier token
(the claims' precondition).  Whether an argument token lexes as an identifier
or as a literal is the parameter `cls` (`true` = identifier). -/

/-- The template helper `capitalizeFirst` (generator.go:296-301):
`strings.ToUpper(s[:1]) + s[1:]`. -/
def capitalizeFirst (s : String) : String :=
  match s.data with
  | [] => s
  | c :: rest => ⟨c.toUpper :: rest⟩

/-- Reparse of one emitted argument token: an identifier token parses to an
`*ast.Ident` of the same name and a literal token to an `*ast.BasicLit` with
the same (verbatim) value. -/
def reparseArg (cls : String → Bool) (tok : String) : Expr :=
  if cls tok then .ident tok else .basicLit tok

/-- Reparse of one emitted validator expression
`validate.{{capitalizeFirst Ty}}(){{range Validators}}...`:
the constructor call on the `validate` identifier followed by the recorded
method calls with their argument tokens spliced back in. -/
def reparsedValidatorExpr (cls : String → Bool) (fieldType : String)
    (validators : List ValidatorCall) : Expr :=
  mkVChain (.callExpr (.selectorExpr (.ident "validate") (capitalizeFirst fieldType)) [])
    (validators.map (fun vc => (vc.Method, vc.Args.map (reparseArg cls))))

/-- Reparse of the two arguments of one emitted `.Field(...)` call: the
selector function literal `func(v T) {{Ty}} { return v.{{Name}} }` (a single
return of a selector; the extractor never inspects the parameter list) and
the validator expression. -/
def reparsedFieldArgs (cls : String → Bool) (f : ValidationField) : List Expr :=
  [ .funcLit (some [.ident f.Ty]) [.returnStmt [.selectorExpr (.ident "v") f.Name]]
  , reparsedValidatorExpr cls f.Ty f.Validators ]

/-- Reparse of the whole emitted schema-value initializer. -/
def reparsedSchemaExpr (cls : String → Bool) (s : ValidationSchema) : Expr :=
  mkChain (structRoot s.TypeName) (s.Fields.map (reparsedFieldArgs cls))

/-! ## Helper predicates and lemmas -/

/-- The expression is a `*ast.CallExpr`. -/
def isCall : Expr → Bool
  | .callExpr _ _ => true
  | _ => false

/-- The expression has the shape `call(selector(...))` that keeps the
validator walk going. -/
def isChainStep : Expr → Bool
  | .callExpr (.selectorExpr _ _) _ => true
  | _ => false

theorem isCall_iff {e : Expr} : isCall e = true ↔ ∃ fn args, e = .callExpr fn args := by
  cases e <;> simp [isCall]

theorem mkChain_isCall (l : List (List Expr)) (root : Expr) (h : isCall root = true) :
    isCall (mkChain root l) = true := by
  induction l generalizing root with
  | nil => simpa [mkChain] using h
  | cons a l ih => exact ih (mkFieldCall root a) rfl

theorem mkVChain_isCall (L : List (String × List Expr)) (root : Expr)
    (h : isCall root = true) : isCall (mkVChain root L) = true := by
  induction L generalizing root with
  | nil => simpa [mkVChain] using h
  | cons c L ih => exact ih (.callExpr (.selectorExpr root c.1) c.2) rfl

theorem findRootCall_step {r : Expr} (h : isCall r = true) (m : String) (args : List Expr) :
    findRootCall (.callExpr (.selectorExpr r m) args) = findRootCall r := by
  obtain ⟨fn, as, rfl⟩ := isCall_iff.mp h
  rfl

theorem findRootCall_mkChain (l : List (List Expr)) {root : Expr} (h : isCall root = true) :
    findRootCall (mkChain root l) = findRootCall root := by
  induction l using List.reverseRecOn with
  | nil => rfl
  | append_singleton l a ih =>
    rw [mkChain, List.foldl_append, List.foldl_cons, List.foldl_nil]
    rw [show List.foldl mkFieldCall root l = mkChain root l from rfl]
    rw [mkFieldCall, findRootCall_step (mkChain_isCall l root h)]
    exact ih

theorem collectFields_mkFieldCall {r : Expr} (h : isCall r = true) (args : List Expr)
    (acc : List ValidationField) :
    collectFields (mkFieldCall r args) acc
      = collectFields r
          (match extractFieldValidation args with
           | some f => f :: acc
           | none => acc) := by
  obtain ⟨fn, as, rfl⟩ := isCall_iff.mp h
  rfl

theorem collectFields_mkChain (l : List (List Expr)) {root : Expr} (h : isCall root = true)
    (acc : List ValidationField) :
    collectFields (mkChain root l) acc
      = collectFields root (l.filterMap extractFieldValidation ++ acc) := by
  induction l using List.reverseRecOn generalizing acc with
  | nil => simp [mkChain]
  | append_singleton l a ih =>
    rw [mkChain, List.foldl_append, List.foldl_cons, List.foldl_nil]
    rw [show List.foldl mkFieldCall root l = mkChain root l from rfl]
    rw [collectFields_mkFieldCall (mkChain_isCall l root h)]
    cases hefv : extractFieldValidation a with
    | none => simp [hefv, ih, List.filterMap_append, hefv]
    | some f => simp [hefv, ih, List.filterMap_append]

theorem collectFields_structRoot (t : String) (acc : List ValidationField) :
    collectFields (structRoot t) acc = acc := rfl

/-- Master lemma for chain extraction: on a `validate.Struct[t]()` root
followed by any sequence of `.Field(args...)` links, extraction succeeds with
`TypeName = t` and the fields are the per-link extraction results in source
order, silently dropping the links on which field extraction fails. -/
theorem extractValidationSchema_mkChain (t : String) (l : List (List Expr)) :
    extractValidationSchema (mkChain (structRoot t) l)
      = some ⟨t, l.filterMap extractFieldValidation⟩ := by
  have hc : isCall (structRoot t) = true := rfl
  obtain ⟨fn, args, heq⟩ := isCall_iff.mp (mkChain_isCall l _ hc)
  have hroot : findRootCall (Expr.callExpr fn args) = structRoot t := by
    rw [← heq, findRootCall_mkChain l hc]; rfl
  have hfields : collectFields (Expr.callExpr fn args) []
      = l.filterMap extractFieldValidation := by
    rw [← heq, collectFields_mkChain l hc, collectFields_structRoot, List.append_nil]
  rw [heq]
  simp only [extractValidationSchema]
  rw [hroot]
  simp only [structRoot]
  rw [hfields]
  simp

/-- The keep-rule for validator arguments described by the claims: basic
literals are kept verbatim, bare identifiers by name, everything else is
omitted. -/
def keptArgToken : Expr → Option String
  | .basicLit v => some v
  | .ident n => some n
  | _ => none

theorem litArgs_eq_filterMap (args : List Expr) :
    litArgs args = args.filterMap keptArgToken := by
  suffices h : ∀ acc : List String,
      args.foldl
        (fun acc a =>
          match a with
          | .basicLit v => acc ++ [v]
          | .ident n => acc ++ [n]
          | _ => acc) acc
      = acc ++ args.filterMap keptArgToken by
    simpa [litArgs] using h []
  induction args with
  | nil => simp
  | cons a args ih =>
    intro acc
    cases a <;> simp [keptArgToken, ih, List.filterMap_cons]

theorem extractValidatorsLoop_nonstep {e : Expr} (h : isChainStep e = false)
    (acc : List ValidatorCall) : extractValidatorsLoop e acc = acc := by
  cases e with
  | callExpr fn args => cases fn <;> simp_all [isChainStep, extractValidatorsLoop]
  | _ => rfl

theorem extractValidatorsLoop_step {r : Expr} (h : isCall r = true) (m : String)
    (args : List Expr) (acc : List ValidatorCall) :
    extractValidatorsLoop (.callExpr (.selectorExpr r m) args) acc
      = extractValidatorsLoop r ({ Method := m, Args := litArgs args } :: acc) := by
  obtain ⟨fn, as, rfl⟩ := isCall_iff.mp h
  simp [extractValidatorsLoop, isValidateIdent]

theorem extractValidatorsLoop_mkVChain (L : List (String × List Expr)) {root : Expr}
    (h : isCall root = true) (acc : List ValidatorCall) :
    extractValidatorsLoop (mkVChain root L) acc
      = extractValidatorsLoop root
          ((L.map fun c => { Method := c.1, Args := litArgs c.2 }) ++ acc) := by
  induction L using List.reverseRecOn generalizing acc with
  | nil => simp [mkVChain]
  | append_singleton L c ih =>
    rw [mkVChain, List.foldl_append, List.foldl_cons, List.foldl_nil]
    rw [show (List.foldl (fun r c => Expr.callExpr (.selectorExpr r c.1) c.2) root L)
          = mkVChain root L from rfl]
    rw [extractValidatorsLoop_step (mkVChain_isCall L root h)]
    simp [ih]

/-- The type-constructor elision (generator.go:241-251): a zero-argument
`String`/`Int` call made directly on the `validate` identifier is skipped,
after which the walk stops at the identifier. -/
theorem extractValidatorsLoop_ctor {m : String} (h : m = "String" ∨ m = "Int")
    (acc : List ValidatorCall) :
    extractValidatorsLoop (.callExpr (.selectorExpr (.ident "validate") m) []) acc
      = acc := by
  rcases h with rfl | rfl <;> rfl

theorem litArgs_reparseArg (cls : String → Bool) (args : List String) :
    litArgs (args.map (reparseArg cls)) = args := by
  rw [litArgs_eq_filterMap, List.filterMap_map]
  have : keptArgToken ∘ reparseArg cls = some := by
    funext tok
    by_cases h : cls tok <;> simp [reparseArg, keptArgToken, h]
  rw [this, List.filterMap_some]

/-- Round trip of one validator chain: re-extracting the re-emitted chain
gives back the recorded calls exactly, provided the spliced type constructor
is one the extractor elides (`String`/`Int`). -/
theorem extractValidators_reparsed (cls : String → Bool) {ty : String}
    (h : capitalizeFirst ty = "String" ∨ capitalizeFirst ty = "Int")
    (L : List ValidatorCall) :
    extractValidators (reparsedValidatorExpr cls ty L) = L := by
  have hroot : isCall
      (Expr.callExpr (.selectorExpr (.ident "validate") (capitalizeFirst ty)) []) = true := rfl
  rw [extractValidators, reparsedValidatorExpr,
    extractValidatorsLoop_mkVChain _ hroot, extractValidatorsLoop_ctor h]
  have hmap : ∀ vc : ValidatorCall,
      ({ Method := vc.Method, Args := litArgs (vc.Args.map (reparseArg cls)) } : ValidatorCall)
        = vc :=
    fun vc => by rw [litArgs_reparseArg]
  rw [List.append_nil, List.map_map]
  have hfun : ((fun c : String × List Expr => ({ Method := c.1, Args := litArgs c.2 } : ValidatorCall))
        ∘ fun vc : ValidatorCall => (vc.Method, vc.Args.map (reparseArg cls)))
      = fun vc => vc := funext fun vc => hmap vc
  rw [hfun]
  exact List.map_id L

/-- Round trip of one emitted `.Field(...)` call's arguments. -/
theorem extractFieldValidation_reparsed (cls : String → Bool) {f : ValidationField}
    (h : capitalizeFirst f.Ty = "String" ∨ capitalizeFirst f.Ty = "Int") :
    extractFieldValidation (reparsedFieldArgs cls f) = some f := by
  simp [reparsedFieldArgs, extractFieldValidation, inferFieldType,
    extractValidators_reparsed cls h]

/-- The explicit type argument of the chain's root builder call, when the
root reached by `findRootCall` has the recognized `validate.Struct[T]()`
shape with `T` a plain identifier (the shape test of generator.go:131-142). -/
def rootTypeParam (e : Expr) : Option String :=
  match findRootCall e with
  | .callExpr (.indexExpr (.selectorExpr (.ident pkg) selName) (.ident tname)) _ =>
    if pkg = "validate" && selName = "Struct" then some tname else none
  | _ => none

theorem foldl_append_eq_flatten {α β : Type} (g : α → List β) (l : List α) (acc : List β) :
    l.foldl (fun acc x => acc ++ g x) acc = acc ++ (l.map g).flatten := by
  induction l generalizing acc with
  | nil => simp
  | cons a l ih => simp [ih]

/-! ## Concrete inputs used by witnesses and counterexamples -/

/-- A type-constructor call `validate.m()`. -/
def ctorCall (m : String) : Expr :=
  .callExpr (.selectorExpr (.ident "validate") m) []

/-- A field-selector function literal `func(param ty) { return param.name }`
as parsed from source. -/
def selFn (param ty name : String) : Expr :=
  .funcLit (some [.ident ty]) [.returnStmt [.selectorExpr (.ident param) name]]

/-- The `User` schema chain of the repository's `examples/codegen` input. -/
def exUserFieldArgs : List (List Expr) :=
  [ [selFn "u" "string" "Username",
     mkVChain (ctorCall "String") [("MinLen", [.basicLit "3"]), ("MaxLen", [.basicLit "30"])]]
  , [selFn "u" "string" "Email", mkVChain (ctorCall "String") [("Email", [])]]
  , [selFn "u" "int" "Age", mkVChain (ctorCall "Int") [("Min", [.basicLit "13"])]] ]

def exUserChain : Expr := mkChain (structRoot "User") exUserFieldArgs

def exUserSchema : ValidationSchema :=
  { TypeName := "User"
    Fields :=
      [ ⟨"Username", "string", [⟨"MinLen", ["3"]⟩, ⟨"MaxLen", ["30"]⟩]⟩
      , ⟨"Email", "string", [⟨"Email", []⟩]⟩
      , ⟨"Age", "int", [⟨"Min", ["13"]⟩]⟩ ] }

/-- A chain with one `float64`-typed field. -/
def c1FloatChain : Expr := mkChain (structRoot "User")
  [ [selFn "u" "float64" "Score", mkVChain (ctorCall "Int") [("Min", [.basicLit "1"])]] ]

def c1FloatSchema : ValidationSchema :=
  ⟨"User", [⟨"Score", "float64", [⟨"Min", ["1"]⟩]⟩]⟩

def c1ReSchema : ValidationSchema :=
  ⟨"User", [⟨"Score", "float64", [⟨"Float64", []⟩, ⟨"Min", ["1"]⟩]⟩]⟩

/-- A chain whose root lacks the explicit type parameter:
`validate.Struct().Field(...)`. -/
def c3NoParamChain : Expr :=
  mkChain (.callExpr (.selectorExpr (.ident "validate") "Struct") [])
    [ [selFn "o" "string" "ID", mkVChain (ctorCall "String") [("MinLen", [.basicLit "1"])]] ]

/-- A parsed file: a doc comment `// validation schema for Order` on a `var`
declaration whose initializer chain has no type parameter. -/
def c3File : FileT :=
  ⟨[ .genDecl ⟨true, some ["// validation schema for Order"],
      [.valueSpec ⟨["OrderSchema"], [c3NoParamChain]⟩]⟩ ]⟩

/-- A parsed file whose only schema-shaped `var` declaration sits inside a
function body. -/
def c9NestedFile : FileT :=
  ⟨[ .funcDecl [⟨true, none, [.valueSpec ⟨["s"], [structRoot "Nested"]⟩]⟩] ]⟩

/-- An emission environment in which every machine operation succeeds. -/
def envAllOk : EmitEnv := ⟨fun _ => true, fun _ => true, fun _ => true⟩

/-- An emission environment in which rendering the `Beta` schema fails and
everything else succeeds. -/
def c7Env : EmitEnv := ⟨fun _ => true, fun _ => true, fun s => !(s.TypeName == "Beta")⟩

def c7Config : Config := ⟨"in.go", "out", "models", false⟩

/-- A parsed file declaring three recognized schemas `Alpha`, `Beta`,
`Gamma`, in that order. -/
def c7File : FileT :=
  ⟨[ .genDecl ⟨true, none, [.valueSpec ⟨["AlphaSchema"], [structRoot "Alpha"]⟩]⟩
   , .genDecl ⟨true, none, [.valueSpec ⟨["BetaSchema"], [structRoot "Beta"]⟩]⟩
   , .genDecl ⟨true, none, [.valueSpec ⟨["GammaSchema"], [structRoot "Gamma"]⟩]⟩ ]⟩

/-- A receiver and argument list containing a dropped (call-shaped)
argument, for the argument-filtering witness. -/
def c10Recv : Expr := ctorCall "String"

def c10Args : List Expr :=
  [.basicLit "3", .callExpr (.ident "f") [], .ident "x", .otherExpr]

/-! ## Claim theorems -/

/-- Claim C2: field order preservation — for every recognized chain
`validate.Struct[t]().Field(a...).Field(b...).Field(c...)` whose field links
each extract successfully, the extracted `ValidationSchema.Fields` sequence
lists the fields in original source order, even though the tree is walked
from the outermost (last-chained) call inward. -/
theorem claim_C2_field_order (t : String) (l : List (List Expr))
    (flds : List ValidationField)
    (h : l.map extractFieldValidation = flds.map some) :
    extractValidationSchema (mkChain (structRoot t) l) = some ⟨t, flds⟩ := by
  rw [extractValidationSchema_mkChain]
  have hl : l.filterMap extractFieldValidation = flds := by
    have h1 : l.filterMap extractFieldValidation
        = (l.map extractFieldValidation).filterMap (fun x => x) := by
      rw [List.filterMap_map]; rfl
    rw [h1, h, List.filterMap_map]
    exact List.filterMap_some flds
  rw [hl]

/-- Claim C2 witness: the three-field `User` chain extracts to the `User`
schema with fields `[Username, Email, Age]` in source order. -/
theorem claim_C2_field_order_witness :
    extractValidationSchema (mkChain (structRoot "User") exUserFieldArgs)
      = some ⟨"User", exUserSchema.Fields⟩ :=
  claim_C2_field_order "User" exUserFieldArgs exUserSchema.Fields rfl

/-- Claim C4: best-effort field leniency — a field link on which field
extraction fails (wrong arity, or first argument not a single-return
projection literal) is dropped silently, and the remaining well-formed field
links of the same chain are still extracted. -/
theorem claim_C4_field_leniency (t : String) (pre post : List (List Expr))
    (bad : List Expr) (h : extractFieldValidation bad = none) :
    extractValidationSchema (mkChain (structRoot t) (pre ++ bad :: post))
      = some ⟨t, (pre ++ post).filterMap extractFieldValidation⟩ := by
  rw [extractValidationSchema_mkChain]
  simp [List.filterMap_append, List.filterMap_cons, h]

/-- Claim C4 witness: a three-argument `Field` call between two well-formed
ones is dropped and the other two fields survive. -/
theorem claim_C4_field_leniency_witness :
    extractValidationSchema
      (mkChain (structRoot "User")
        [ [selFn "u" "string" "Username", mkVChain (ctorCall "String") []]
        , [selFn "u" "string" "Email", mkVChain (ctorCall "String") [], .basicLit "3"]
        , [selFn "u" "int" "Age", mkVChain (ctorCall "Int") []] ])
      = some ⟨"User", [⟨"Username", "string", []⟩, ⟨"Age", "int", []⟩]⟩ :=
  claim_C4_field_leniency "User"
    [[selFn "u" "string" "Username", mkVChain (ctorCall "String") []]]
    [[selFn "u" "int" "Age", mkVChain (ctorCall "Int") []]]
    [selFn "u" "string" "Email", mkVChain (ctorCall "String") [], .basicLit "3"] rfl

/-- Claim C5: validator-call order — a validator chain
`validate.String()....` / `validate.Int()....` extracts its method calls in
left-to-right source order with the leading type constructor elided, even
though the walk proceeds outermost-in; and the walk stops at the first node
that is not a call on a selector. -/
theorem claim_C5_validator_order (ctor : String) (L : List (String × List Expr))
    (h : ctor = "String" ∨ ctor = "Int") :
    extractValidators (mkVChain (.callExpr (.selectorExpr (.ident "validate") ctor) []) L)
        = L.map (fun c => { Method := c.1, Args := litArgs c.2 })
      ∧ ∀ (e : Expr) (acc : List ValidatorCall),
          isChainStep e = false → extractValidatorsLoop e acc = acc := by
  constructor
  · have hroot : isCall (Expr.callExpr (.selectorExpr (.ident "validate") ctor) []) = true := rfl
    rw [extractValidators, extractValidatorsLoop_mkVChain _ hroot,
      extractValidatorsLoop_ctor h, List.append_nil]
  · exact fun e acc he => extractValidatorsLoop_nonstep he acc

/-- Claim C5 witness: `validate.String().MinLen(3).MaxLen(30)` yields
`[MinLen, MaxLen]` in that order. -/
theorem claim_C5_validator_order_witness :
    extractValidators
      (mkVChain (.callExpr (.selectorExpr (.ident "validate") "String") [])
        [("MinLen", [.basicLit "3"]), ("MaxLen", [.basicLit "30"])])
      = [{ Method := "MinLen", Args := ["3"] }, { Method := "MaxLen", Args := ["30"] }] := by
  rw [(claim_C5_validator_order "String"
    [("MinLen", [.basicLit "3"]), ("MaxLen", [.basicLit "30"])] (Or.inl rfl)).1]
  rfl

/-- Claim C10: validator-argument filtering — every call walked by the
validator extractor records exactly the basic-literal arguments (verbatim)
and bare-identifier arguments (by name), in original argument order; every
other argument shape is silently omitted. -/
theorem claim_C10_arg_filtering :
    (∀ args : List Expr, litArgs args = args.filterMap keptArgToken)
  ∧ ∀ (r : Expr) (m : String) (args : List Expr) (acc : List ValidatorCall),
      isCall r = true →
      extractValidatorsLoop (.callExpr (.selectorExpr r m) args) acc
        = extractValidatorsLoop r
            ({ Method := m, Args := args.filterMap keptArgToken } :: acc) :=
  ⟨litArgs_eq_filterMap,
   fun r m args acc h => by
     rw [extractValidatorsLoop_step h, litArgs_eq_filterMap]⟩

/-- Claim C10 witness: of the arguments `3, f(), x, <other>` only the
literal `3` and the identifier `x` are recorded, in order. -/
theorem claim_C10_arg_filtering_witness :
    extractValidatorsLoop (.callExpr (.selectorExpr c10Recv "Pattern") c10Args) []
      = [{ Method := "Pattern", Args := ["3", "x"] }] := by
  rw [claim_C10_arg_filtering.2 c10Recv "Pattern" c10Args [] rfl]
  rfl

/-- Claim C1 (amended): round trip — emitting an extracted schema with
`generateValidator`'s template and re-parsing and re-extracting the emitted
source yields the identical schema (same fields in the same order, each with
the original name, type and verbatim argument tokens), provided every
field's declared type capitalizes to the `String` or `Int` constructor name,
so that the re-emitted type constructor is elided by the second extraction
exactly as the original one was. -/
theorem claim_C1_roundtrip (cls : String → Bool) (s : ValidationSchema)
    (h : ∀ f ∈ s.Fields,
      capitalizeFirst f.Ty = "String" ∨ capitalizeFirst f.Ty = "Int") :
    extractValidationSchema (reparsedSchemaExpr cls s) = some s := by
  rw [reparsedSchemaExpr, extractValidationSchema_mkChain, List.filterMap_map]
  have hcg : ∀ f ∈ s.Fields, (extractFieldValidation ∘ reparsedFieldArgs cls) f = some f :=
    fun f hf => extractFieldValidation_reparsed cls (h f hf)
  rw [List.filterMap_congr hcg, List.filterMap_some]

/-- Claim C1 witness: the `User` schema (fields of types `string` and `int`)
round-trips exactly. -/
theorem claim_C1_roundtrip_witness :
    extractValidationSchema (reparsedSchemaExpr (fun _ => false) exUserSchema)
      = some exUserSchema :=
  claim_C1_roundtrip (fun _ => false) exUserSchema (by decide)

/-- Claim C1 counterexample: a schema extracted from a chain whose field
type is `float64` (a simple named type, with literal validator arguments)
does not round-trip: the first extraction records the `Float64` constructor
call once, the emitted source `validate.Float64().Float64().Min(1)` contains
it twice, and re-extraction yields an extra leading `Float64` validator
entry, so the re-extracted fields differ from the originals. -/
theorem claim_C1_counterexample :
    extractValidationSchema c1FloatChain = some c1FloatSchema
  ∧ extractValidationSchema (reparsedSchemaExpr (fun _ => false) c1FloatSchema)
      = some c1ReSchema
  ∧ c1ReSchema ≠ c1FloatSchema :=
  ⟨rfl, rfl, by decide⟩

/-- Claim C3 (amended): the resolved `TypeName` is always exactly the
explicit identifier type parameter of the root builder call — a declaration
lacking one is never recognized in the first place, so the doc-comment and
variable-name fallbacks of `findValidationSchemas` (which run only on an
empty extracted `TypeName`) never alter a recognized schema. -/
theorem claim_C3_type_param_only :
    (∀ (v : Expr) (s : ValidationSchema),
        extractValidationSchema v = some s → rootTypeParam v = some s.TypeName)
  ∧ ∀ (doc : Option (List String)) (names : List String) (i : Nat)
      (s : ValidationSchema),
      s.TypeName ≠ "" → resolveSchemaName doc names i s = s := by
  constructor
  · intro v s h
    cases v with
    | callExpr fn args =>
      simp only [extractValidationSchema] at h
      simp only [rootTypeParam]
      split at h
      next pkg selName tname rest heq =>
        split at h
        next hcond =>
          rw [if_pos hcond]
          simp only [Option.some.injEq] at h
          subst h
          rfl
        next hcond => simp at h
      next => simp at h
    | selectorExpr x sel => simp [extractValidationSchema] at h
    | indexExpr x i => simp [extractValidationSchema] at h
    | ident n => simp [extractValidationSchema] at h
    | basicLit v => simp [extractValidationSchema] at h
    | funcLit r b => simp [extractValidationSchema] at h
    | otherExpr => simp [extractValidationSchema] at h
  · intro doc names i s h
    simp [resolveSchemaName, h]

/-- Claim C3 witness: a recognized chain resolves `TypeName` to its type
parameter, and the fallbacks leave a nonempty `TypeName` untouched even with
a matching doc comment and a `...Schema` variable name present. -/
theorem claim_C3_type_param_only_witness :
    rootTypeParam exUserChain = some "User"
  ∧ resolveSchemaName (some ["// validation schema for Order"]) ["OrderSchema"] 0
      ⟨"User", []⟩ = ⟨"User", []⟩ :=
  ⟨claim_C3_type_param_only.1 exUserChain exUserSchema rfl,
   claim_C3_type_param_only.2 (some ["// validation schema for Order"]) ["OrderSchema"] 0
     ⟨"User", []⟩ (by decide)⟩

/-- Claim C3 counterexample: a `var` declaration whose chain lacks the type
parameter is not recognized at all — despite its doc comment
`// validation schema for Order` the file yields no schema, rather than one
with `TypeName = "Order"` as the claim's precedence list predicts. -/
theorem claim_C3_counterexample : findValidationSchemas c3File = [] := rfl

/-- Claim C9 (amended): schemas are extracted from every `var` declaration
with an initializer that `ast.Inspect` encounters in its depth-first walk —
top-level ones and also those nested inside function bodies — in encounter
order; non-`var` declarations and value specs without initializers
contribute nothing. -/
theorem claim_C9_scan_scope :
    (∀ f : FileT,
        findValidationSchemas f
          = ((f.Decls.map declGenDecls).flatten.map schemasOfGenDecl).flatten)
  ∧ (∀ (doc : Option (List String)) (specs : List SpecT),
        schemasOfGenDecl ⟨false, doc, specs⟩ = [])
  ∧ ∀ (doc : Option (List String)) (names : List String),
      schemasOfValueSpec doc ⟨names, []⟩ = [] := by
  refine ⟨fun f => ?_, fun doc specs => rfl, fun doc names => rfl⟩
  rw [findValidationSchemas, foldl_append_eq_flatten, List.nil_append, inspectGenDecls,
    foldl_append_eq_flatten, List.nil_append]

/-- Claim C9 counterexample: a file whose only schema-shaped `var`
declaration sits inside a function body still yields that schema — the claim
predicts it yields none. -/
theorem claim_C9_counterexample :
    findValidationSchemas c9NestedFile = [⟨"Nested", []⟩]
  ∧ findValidationSchemas c9NestedFile ≠ ([] : List ValidationSchema) :=
  ⟨rfl, by decide⟩

/-- Claim C6: no-schema hard failure — an input file that parses but
contains zero recognized schema declarations makes `Generate` return the
no-schemas error before emitting anything: no output file is written. -/
theorem claim_C6_no_schema_failure (env : EmitEnv) (config : Config) (f : FileT)
    (h : findValidationSchemas f = []) :
    Generate env config (some f) = ([], some (.noSchemaFound config.InputFile)) := by
  simp [Generate, h]

/-- Claim C6 witness: an empty parsed file yields the no-schemas error and
an empty write trace. -/
theorem claim_C6_no_schema_failure_witness :
    Generate envAllOk ⟨"in.go", "gen", "p", false⟩ (some ⟨[]⟩)
      = ([], some (.noSchemaFound "in.go")) :=
  claim_C6_no_schema_failure envAllOk ⟨"in.go", "gen", "p", false⟩ ⟨[]⟩ rfl

theorem emitSchemas_fail (env : EmitEnv) (config : Config)
    (post : List ValidationSchema) (s : ValidationSchema) (e : EmitErr)
    (hs : (generateValidator env config s).2 = some e) :
    ∀ pre : List ValidationSchema,
      (∀ x ∈ pre, (generateValidator env config x).2 = none) →
      emitSchemas env config (pre ++ s :: post)
        = ((pre.map fun x => (generateValidator env config x).1).flatten
            ++ (generateValidator env config s).1,
           some (.emission s.TypeName e)) := by
  intro pre
  induction pre with
  | nil =>
    intro _
    rcases hgv : generateValidator env config s with ⟨files, err⟩
    rw [hgv] at hs
    simp only at hs
    subst hs
    simp [emitSchemas, hgv]
  | cons x pre ih =>
    intro hpre
    rcases hgx : generateValidator env config x with ⟨fx, errx⟩
    have hx : errx = none := by
      have hmem := hpre x (by simp)
      rw [hgx] at hmem
      exact hmem
    subst hx
    have ihr := ih (fun y hy => hpre y (List.mem_cons_of_mem x hy))
    rw [List.cons_append]
    simp only [emitSchemas]
    rw [hgx]
    simp only [ihr, hgx, List.map_cons, List.flatten_cons, List.append_assoc]

/-- Claim C7: fail-fast emission — when emitting one schema fails, `Generate`
returns that failure (wrapped with the schema's type name) immediately: no
schema after it in the sequence is emitted, while the files created for the
earlier schemas (and any file already created for the failing one) remain in
the write trace, with no rollback. -/
theorem claim_C7_fail_fast (env : EmitEnv) (config : Config) (f : FileT)
    (pre post : List ValidationSchema) (s : ValidationSchema) (e : EmitErr)
    (hf : findValidationSchemas f = pre ++ s :: post)
    (hpre : ∀ x ∈ pre, (generateValidator env config x).2 = none)
    (hs : (generateValidator env config s).2 = some e) :
    Generate env config (some f)
      = ((pre.map fun x => (generateValidator env config x).1).flatten
          ++ (generateValidator env config s).1,
         some (.emission s.TypeName e)) := by
  simp only [Generate, hf]
  rw [if_neg (by simp)]
  exact emitSchemas_fail env config post s e hs pre hpre

/-- Claim C7 witness: with rendering failing on `Beta`, a three-schema run
`[Alpha, Beta, Gamma]` keeps `Alpha`'s file and `Beta`'s created-but-failed
file on disk, reports the `Beta` failure, and never emits `Gamma`. -/
theorem claim_C7_fail_fast_witness :
    Generate c7Env c7Config (some c7File)
      = (["out/alpha_validator.go", "out/beta_validator.go"],
         some (.emission "Beta" (.renderFailed "Beta"))) := by
  rw [claim_C7_fail_fast c7Env c7Config c7File [⟨"Alpha", []⟩] [⟨"Gamma", []⟩]
    ⟨"Beta", []⟩ (.renderFailed "Beta") rfl
    (by intro x hx; rw [List.mem_singleton] at hx; subst hx; rfl) rfl]
  rfl

/-- Claim C8: output file naming — a successful emission writes exactly one
file, at `<output-dir>/<lowercase(TypeName)>_validator.go` (creation
truncates any existing file of that name: the creation oracle is a function
of the path alone, never of prior existence). -/
theorem claim_C8_output_path (env : EmitEnv) (config : Config) (s : ValidationSchema)
    (h : (generateValidator env config s).2 = none) :
    (generateValidator env config s).1
      = [config.OutputDir ++ "/" ++ (strToLower s.TypeName ++ "_validator.go")] := by
  by_cases h1 : env.mkdirOk config.OutputDir
  · by_cases h2 : env.createOk (config.OutputDir ++ "/" ++ (strToLower s.TypeName ++ "_validator.go"))
    · by_cases h3 : env.renderOk s
      · simp [generateValidator, outFilePath, h1, h2, h3]
      · simp [generateValidator, outFilePath, h1, h2, h3] at h
    · simp [generateValidator, outFilePath, h1, h2] at h
  · simp [generateValidator, outFilePath, h1] at h

/-- Claim C8 witness: `TypeName = "Invoice"` with output directory `gen`
produces exactly the file `gen/invoice_validator.go`. -/
theorem claim_C8_output_path_witness :
    (generateValidator envAllOk ⟨"schemas.go", "gen", "models", false⟩ ⟨"Invoice", []⟩).1
      = ["gen/invoice_validator.go"] := by
  rw [claim_C8_output_path envAllOk ⟨"schemas.go", "gen", "models", false⟩ ⟨"Invoice", []⟩ rfl]
  rfl

end TibebGen
